import Mathlib

/-!
Verification of `nbd/memory_card_reader.py` (PlayStation memory-card USB
adapter driver).  The Python source is shallowly embedded: byte strings
become `List Nat` (each element a byte value), the USB bulk-read stream
becomes a `List (List Nat)` of packets consumed from the front, and Python
exceptions (`ValueError`, `AssertionError`, `IndexError`, `TypeError`,
`struct.error`) become an explicit `Err` value through `Except`.
Block-level device primitives (`readFrame`/`readPage`,
`writeFrame`/`writePage`) used by the byte-range I/O layer are passed as
parameters, exactly as the source binds them dynamically per detected card
type; the simulated device of the spec's testable properties instantiates
them with a block store `Nat → List Nat`.
-/

deriving instance DecidableEq for Except

namespace MCR

/-- `RESPONSE_CODE = b'\x55'` (memory_card_reader.py line 10). -/
def RESPONSE_CODE : Nat := 0x55

/-- `RESPONSE_STATUS_SUCCES = b'\x5a'` (line 11). -/
def RESPONSE_STATUS_SUCCES : Nat := 0x5a

/-- `FRAME_LENGTH = 0x80` (PS1 block size, line 18). -/
def FRAME_LENGTH : Nat := 0x80

/-- `PAGE_LENGTH = 0x210` (PS2 block size, line 14). -/
def PAGE_LENGTH : Nat := 0x210

/-- `PS1_CARD_SIZE = 0x20000` (line 19). -/
def PS1_CARD_SIZE : Nat := 0x20000

/-- `PS2_CARD_SIZE = 0x840210` (line 15). -/
def PS2_CARD_SIZE : Nat := 0x840210

/-- `CARD_SIZE_DICT.get(card_type)` (lines 23-26): total card size by type. -/
def CARD_SIZE_DICT : Nat → Option Nat
  | 1 => some PS1_CARD_SIZE
  | 2 => some PS2_CARD_SIZE
  | _ => none

/-- `CARD_PAGE_DICT.get(card_type)` (lines 28-31): block size by type. -/
def CARD_PAGE_DICT : Nat → Option Nat
  | 1 => some FRAME_LENGTH
  | 2 => some PAGE_LENGTH
  | _ => none

/-- The Python exceptions the driver can raise, made explicit.
`framingError` is the `ValueError` of `_responseRead` (bad response marker);
`assertError` is any failed `assert`; `outOfRange` / `unknownCard` are the
`ValueError`s of `read`/`write`; `indexError` is Python's `IndexError`;
`typeError` is Python 3's `TypeError` from `str.join` applied to bytes;
`structError` is `struct.error` from `pack`/`unpack`; `blockedRead` marks a
bulk read attempted when the modelled packet stream is exhausted (the real
transport would block forever). -/
inductive Err
  | framingError
  | assertError
  | outOfRange
  | unknownCard
  | indexError
  | typeError
  | structError
  | blockedRead
  deriving DecidableEq

/-- The value of two little-endian bytes read as a signed 16-bit integer
(Python's `'<h'` format). -/
def sInt16 (lo hi : Nat) : Int :=
  if lo + 256 * hi ≥ 32768 then (lo + 256 * hi : Int) - 65536 else (lo + 256 * hi : Int)

/-- `struct.unpack('<h', s)[0]`: little-endian signed 16-bit decode of
exactly two bytes; any other length raises `struct.error` (line 68). -/
def unpackInt16LE : List Nat → Option Int
  | [lo, hi] => some (sInt16 lo hi)
  | _ => none

/-- `struct.pack('<h', n)` for `0 ≤ n < 0x8000` (used on command lengths,
line 86): two bytes, little endian. -/
def packInt16LE (n : Nat) : List Nat := [n % 256, n / 256 % 256]

/-- `struct.pack('>H', n)`: big-endian unsigned 16-bit encode; raises
`struct.error` when out of range (lines 126, 148). -/
def packUInt16BE (n : Nat) : Option (List Nat) :=
  if n < 0x10000 then some [n / 256, n % 256] else none

/-- `_padCommand(command, padding)` (lines 36-37): append `padding` zero
bytes. -/
def _padCommand (command : List Nat) (padding : Nat := 2) : List Nat :=
  command ++ List.replicate padding 0

/-- `_stripResponse(response, padding)` (lines 39-42): all bytes of
`response[:-padding]` must be `0xff` (else `AssertionError`, modelled as
`none`); returns `response[-padding:]`. -/
def _stripResponse (response : List Nat) (padding : Nat := 2) : Option (List Nat) :=
  let stuffing := response.take (response.length - padding)
  if stuffing.all (· = 0xff) then some (response.drop (response.length - padding))
  else none

/-- Bytes put on the wire by `_commandWrite` (lines 82-83):
`COMMAND_CODE + data`. -/
def shortCommandBytes (data : List Nat) : List Nat := 0xaa :: data

/-- Bytes put on the wire by `_longCommandWrite` (lines 85-86):
`COMMAND_CODE + COMMAND_TYPE_LONG + pack('<h', len(data)) + data`. -/
def longCommandBytes (data : List Nat) : List Nat :=
  0xaa :: 0x42 :: (packInt16LE data.length ++ data)

/-- `_responseRead` (lines 55-60) over the modelled packet stream: take the
next bulk packet; its first byte must equal `RESPONSE_CODE` or a
`ValueError` (framing error) is raised; returns the packet minus that
marker byte, together with the unconsumed stream. -/
def _responseRead (ps : List (List Nat)) : Except Err (List Nat × List (List Nat)) :=
  match ps with
  | [] => .error .blockedRead
  | p :: ps' =>
      if p.take 1 = [RESPONSE_CODE] then .ok (p.drop 1, ps') else .error .framingError

/-- The `while data_length < response_length` loop of `_longResponseRead`
(lines 72-75): keep reading raw packets (no marker check) and appending
them until the accumulated length reaches the declared length.  `acc` holds
the chunks appended so far (the Python `result` list), `dlen` the Python
`data_length` counter. -/
def longLoop (rlen : Int) : List (List Nat) → Int → List (List Nat) →
    Except Err (List (List Nat) × List (List Nat))
  | ps, dlen, acc =>
    if dlen < rlen then
      match ps with
      | [] => .error .blockedRead
      | p :: ps' => longLoop rlen ps' (dlen + p.length) (acc ++ [p])
    else .ok (acc, ps)

/-- `_longResponseRead` (lines 62-76): read one marker-checked packet; byte
0 of the remainder is the status; on `RESPONSE_STATUS_SUCCES`, bytes 1-2
are the little-endian signed 16-bit declared length and the rest of the
packet is the first payload chunk, extended by raw continuation packets
until the declared length is covered; on any other status, returns that
status with an empty payload, consuming no further packets.  Returns
`((status, payload), remaining stream)`. -/
def _longResponseRead (ps : List (List Nat)) :
    Except Err ((List Nat × List Nat) × List (List Nat)) :=
  match _responseRead ps with
  | .error e => .error e
  | .ok (response, ps') =>
      let response_code := response.take 1
      if response_code = [RESPONSE_STATUS_SUCCES] then
        match unpackInt16LE ((response.drop 1).take 2) with
        | none => .error .structError
        | some response_length =>
            let data := response.drop 3
            match longLoop response_length ps' (data.length : Int) [data] with
            | .error e => .error e
            | .ok (acc, rest) => .ok ((response_code, acc.flatten), rest)
      else .ok ((response_code, []), ps')

/-- `getCardType` (lines 89-99): short command `0x40`; the response (packet
minus marker) must be exactly one byte (`assert len(response) == 1`), and
that byte is returned as-is — the source performs no check that it lies in
`{0, 1, 2}`. -/
def getCardType (ps : List (List Nat)) : Except Err (Nat × List (List Nat)) :=
  match _responseRead ps with
  | .error e => .error e
  | .ok (response, ps') =>
      if response.length = 1 then .ok (response.getD 0 0, ps') else .error .assertError

/-- Command bytes sent by `getCardType`. -/
def getCardType_cmd : List Nat := shortCommandBytes [0x40]

/-- `isAuthenticated` (lines 101-117): long command `0x81 0x11` padded with
2 zero bytes, then a long response.  Status `0xaf` yields `false`; status
`RESPONSE_STATUS_SUCCES` requires the stripped 2-byte payload to equal
`0x2b 0x55` and yields `true`; anything else is an `AssertionError`. -/
def isAuthenticated (ps : List (List Nat)) : Except Err (Bool × List (List Nat)) :=
  match _longResponseRead ps with
  | .error e => .error e
  | .ok ((response_code, data), ps') =>
      if response_code = [0xaf] then .ok (false, ps')
      else if response_code = [RESPONSE_STATUS_SUCCES] then
        match _stripResponse data 2 with
        | some response => if response = [0x2b, 0x55] then .ok (true, ps') else .error .assertError
        | none => .error .assertError
      else .error .assertError

/-- Command bytes sent by `isAuthenticated`. -/
def isAuthenticated_cmd : List Nat := longCommandBytes (_padCommand [0x81, 0x11] 2)

/-- Python 3 `''.join(items)` where every item is a bytes object (as in
`writeFrame` line 149 and `writePage` line 192): the empty-string separator
is a `str`, and `str.join` raises `TypeError` on the first bytes item, so
the call only returns (the empty string) when the sequence is empty. -/
def pyStrJoinBytes (items : List (List Nat)) : Except Err (List Nat) :=
  match items with
  | [] => .ok []
  | _ :: _ => .error .typeError

/-- `writeFrame(frame_number, data)` (lines 141-168).  Asserts
`len(data) == FRAME_LENGTH`, encodes the frame number big-endian, then
builds the command body with `''.join((b'\x81\x57\x5a\x5d',
encoded_frame_number, data, b'\x00', b'\x5c\x5d\x47'))` — which, the
operands being bytes, raises `TypeError` in Python 3 before anything is
sent.  The (unreachable) continuation validates the echoed header, frame
number and data of the long response, and performs no check on the last
3 response bytes; its single-byte accesses are modelled as slice
comparisons.  Returns the error/unit outcome paired with the list of bulk
writes performed. -/
def writeFrame (frame_number : Nat) (data : List Nat) (ps : List (List Nat)) :
    Except Err Unit × List (List Nat) :=
  if data.length = FRAME_LENGTH then
    match packUInt16BE frame_number with
    | none => (.error .structError, [])
    | some encoded_frame_number =>
        match pyStrJoinBytes [[0x81, 0x57, 0x5a, 0x5d], encoded_frame_number, data,
            [0x00], [0x5c, 0x5d, 0x47]] with
        | .error e => (.error e, [])
        | .ok body =>
            let sent := longCommandBytes body
            match _longResponseRead ps with
            | .error e => (.error e, [sent])
            | .ok ((response_code, response_data), _) =>
                if response_code = [RESPONSE_STATUS_SUCCES] then
                  if response_data.take 4 = [0xff, 0x00, 0x5a, 0x5d] then
                    if (response_data.drop 4).take 1 = [0x00] then
                      if (response_data.drop 5).take 2 = encoded_frame_number then
                        if (response_data.drop 7).take (response_data.length - 10) = data then
                          (.ok (), [sent])
                        else (.error .assertError, [sent])
                      else (.error .assertError, [sent])
                    else (.error .assertError, [sent])
                  else (.error .assertError, [sent])
                else (.error .assertError, [sent])
  else (.error .assertError, [])

/-! ## Block I/O layer (`read` / `write`, lines 302-365)

`read` and `write` dispatch on the detected card type, binding local
`read`/`write` callables to the frame (PS1) or page (PS2) primitives, and
then operate purely in terms of those block primitives plus the geometry
dictionaries.  The embedding keeps that structure: the block primitives are
parameters (`readB` over a block store, `writeB` over a device state), and
every block command issued is recorded in a `BOp` trace in execution
order.  The card type itself is a parameter standing for the value
`getCardType` returned. -/

/-- One block-level device command: a block read or a block write. -/
inductive BOp
  | rd (block : Nat)
  | wr (block : Nat) (data : List Nat)
  deriving DecidableEq

/-- The `while result_len < length` loop of `read` (lines 324-329), with
`need = start_offset + length` so that the Python condition
`result_len < length` (where `result_len` starts at `-start_offset` and
grows by `block_length` per iteration) is `collected < need`.  Each
iteration reads block `cur`, asserts its length equals `block_length`
(line 326), appends it and advances.  Returns the trace of block reads
performed paired with the collected blocks (`none` = failed assert).
The `B = 0` escape is unreachable (both registered block sizes are
positive) and only makes the recursion well-founded. -/
def readLoopAux (readB : Nat → List Nat) (B : Nat) :
    Nat → Nat → Nat → List BOp × Option (List (List Nat))
  | 0, _, _ => ([], some [])
  | fuel + 1, cur, need =>
    if need = 0 then ([], some [])
    else
      let d := readB cur
      if d.length = B then
        let r := readLoopAux readB B fuel (cur + 1) (need - B)
        (BOp.rd cur :: r.1, r.2.map (d :: ·))
      else ([BOp.rd cur], none)

/-- The read-accumulation loop, entered with enough iteration budget: since
every iteration removes `B ≥ 1` from `need`, `need` itself bounds the
iteration count (both registered block sizes are positive; the budget is
never exhausted). -/
def readLoop (readB : Nat → List Nat) (B cur need : Nat) :
    List BOp × Option (List (List Nat)) :=
  readLoopAux readB B need cur need

/-- `result[-1] = result[-1][:length - result_len]` (line 332): Python's
negative-stop slice keeps `len(last) - excess` leading elements of the last
list (clamped at zero). -/
def trimLast (R : List (List Nat)) (excess : Nat) : List (List Nat) :=
  match R with
  | [] => []
  | [l] => [l.take (l.length - excess)]
  | x :: xs => x :: trimLast xs excess

/-- The body of `read(offset, length)` (lines 318-333) once the card-type
dispatch has resolved the block primitive `readB` and the geometry
`(B, M)`.  Steps: bounds check (`offset + length > max_length` raises
before any block command), the accumulation loop, then
`result[0] = result[0][start_offset:]` — an `IndexError` when the loop ran
zero times and `result` is empty — and the final trim of the last block
when `result_len > length`.  Returns the outcome paired with the trace of
block commands issued. -/
def readCore (readB : Nat → List Nat) (B M offset length : Nat) :
    Except Err (List Nat) × List BOp :=
  if offset + length > M then (.error .outOfRange, [])
  else
    let cb := offset / B
    let so := offset % B
    let r := readLoop readB B cb (so + length)
    match r.2 with
    | none => (.error .assertError, r.1)
    | some [] => (.error .indexError, r.1)
    | some (b0 :: rest) =>
        let R := b0.drop so :: rest
        let n := rest.length + 1
        let R' := if n * B > so + length then trimLast R (n * B - (so + length)) else R
        (.ok R'.flatten, r.1)

/-- `read(offset, length)` (lines 302-333): card-type dispatch (unknown
type raises) and geometry lookup, then `readCore`. -/
def read (readB : Nat → List Nat) (ct offset length : Nat) :
    Except Err (List Nat) × List BOp :=
  if ct = 1 ∨ ct = 2 then
    match CARD_PAGE_DICT ct, CARD_SIZE_DICT ct with
    | some B, some M => readCore readB B M offset length
    | _, _ => (.error .unknownCard, [])
  else (.error .unknownCard, [])

/-- The `while len(data) >= block_length` loop of `write` (lines 359-362):
peel off and write full blocks, advancing the block index.  Returns the
final device state, block index, leftover data (shorter than a block) and
the trace of block writes.  As in `readLoop`, the `B = 0` escape is
unreachable and only for well-foundedness. -/
def writeLoopAux {σ : Type} (writeB : σ → Nat → List Nat → σ) (B : Nat) :
    Nat → σ → Nat → List Nat → σ × Nat × List Nat × List BOp
  | 0, st, cb, data => (st, cb, data, [])
  | fuel + 1, st, cb, data =>
    if data.length < B then (st, cb, data, [])
    else
      let to_write := data.take B
      let r := writeLoopAux writeB B fuel (writeB st cb to_write) (cb + 1) (data.drop B)
      (r.1, r.2.1, r.2.2.1, BOp.wr cb to_write :: r.2.2.2)

/-- The full-block write loop, entered with enough iteration budget: each
iteration removes `B ≥ 1` bytes, so `len(data)` bounds the iteration count
(and when the budget is spent the remaining data is already shorter than a
block, making the two exits coincide). -/
def writeLoop {σ : Type} (writeB : σ → Nat → List Nat → σ) (B : Nat)
    (st : σ) (cb : Nat) (data : List Nat) : σ × Nat × List Nat × List BOp :=
  writeLoopAux writeB B data.length st cb data

/-- The tail of `write` after the leading-block read-modify-write (lines
359-365): the full-block loop, then — when a non-empty remainder is left —
read the block at the current index (the primitive asserts it has block
length), append its trailing bytes and write the combined block. -/
def writeTail {σ : Type} (readB : σ → Nat → List Nat) (writeB : σ → Nat → List Nat → σ)
    (B : Nat) (st : σ) (cb : Nat) (data : List Nat) : Except Err σ × List BOp :=
  let r := writeLoop writeB B st cb data
  let st1 := r.1
  let cb1 := r.2.1
  let rem := r.2.2.1
  let tr := r.2.2.2
  if rem.length ≠ 0 then
    let t := readB st1 cb1
    if t.length = B then
      (.ok (writeB st1 cb1 (rem ++ t.drop rem.length)), tr ++ [.rd cb1, .wr cb1 (rem ++ t.drop rem.length)])
    else (.error .assertError, tr ++ [.rd cb1])
  else (.ok st1, tr)

/-- The body of `write(offset, data)` (lines 354-365) once the card-type
dispatch has resolved the block primitives `readB` / `writeB` (acting on a
device state `σ`) and the geometry `(B, M)`.  Steps: bounds check
(`offset + len(data) > max_length` raises before any block command),
leading-block read-modify-write when `offset` is not block-aligned (lines
357-358, the read primitive asserts the block length), then the full-block
loop and the trailing-block read-modify-write.  Returns the outcome (final
device state) paired with the trace of block commands issued. -/
def writeCore {σ : Type} (readB : σ → Nat → List Nat) (writeB : σ → Nat → List Nat → σ)
    (B M : Nat) (st : σ) (offset : Nat) (data : List Nat) : Except Err σ × List BOp :=
  if offset + data.length > M then (.error .outOfRange, [])
  else
    let cb := offset / B
    let so := offset % B
    if so ≠ 0 then
      let d0 := readB st cb
      if d0.length = B then
        let r := writeTail readB writeB B st cb (d0.take so ++ data)
        (r.1, BOp.rd cb :: r.2)
      else (.error .assertError, [.rd cb])
    else writeTail readB writeB B st cb data

/-- `write(offset, data)` (lines 335-365): card-type dispatch (unknown
type raises) and geometry lookup, then `writeCore`. -/
def write {σ : Type} (readB : σ → Nat → List Nat) (writeB : σ → Nat → List Nat → σ)
    (st : σ) (ct offset : Nat) (data : List Nat) : Except Err σ × List BOp :=
  if ct = 1 ∨ ct = 2 then
    match CARD_PAGE_DICT ct, CARD_SIZE_DICT ct with
    | some B, some M => writeCore readB writeB B M st offset data
    | _, _ => (.error .unknownCard, [])
  else (.error .unknownCard, [])

/-- The simulated device of the spec's testable properties: a block store
`Nat → List Nat` that echoes stored blocks.  Block read is lookup. -/
def echoRead (st : Nat → List Nat) (i : Nat) : List Nat := st i

/-- Specification helper: the store after overwriting the `m` blocks
starting at `cb` with the consecutive `B`-sized chunks of `V`. -/
def overlayV (st : Nat → List Nat) (cb : Nat) (V : List Nat) (B m j : Nat) : List Nat :=
  if cb ≤ j ∧ j < cb + m then (V.drop ((j - cb) * B)).take B else st j

/-- Specification helper: the bytes a trailing read-modify-write borrows
from the stored block after the written range (empty when the data is
block-aligned). -/
def tailPad (st : Nat → List Nat) (cb B : Nat) (data : List Nat) : List Nat :=
  if data.length % B = 0 then []
  else (st (cb + data.length / B)).drop (data.length % B)

/-- Specification helper: how many blocks a byte run of length `len`
starting block-aligned touches. -/
def blocksSpan (B len : Nat) : Nat := len / B + (if len % B = 0 then 0 else 1)

/-- Block write on the echo device: replace one stored block. -/
def echoWrite (st : Nat → List Nat) (i : Nat) (d : List Nat) : Nat → List Nat :=
  fun j => if j = i then d else st j

/-! ## Authentication state machine (`authenticate`, lines 382-455)

`authenticate` is a `while not self.isAuthenticated()` loop issuing a fixed
sequence of `0x81..`-family commands per attempt.  The device is the only
stateful party; the embedding abstracts it as two oracles giving, per call
index, the outcome of `isAuthenticated()` (`isA`) and of the
acknowledgement probe `__81f0(5)` (`ack`) — a `false` from `ack` is the
device's `0xaf` timeout signal, after which the source prints a warning and
`continue`s.  All other steps of an attempt are taken against a
protocol-conformant device (they raise on any malformed response, which
the claim's simulated device never produces) and are recorded in a trace
of `AuthStep`s in wire order.  The loop itself is unbounded in the source;
`fuel` bounds the modelled unrolling, with outcome `stillRunning` when it
is exhausted. -/

/-- One observable step of the authentication sequence: the
`isAuthenticated` query, probes `__81f0(seq)`, 9-byte receives
`__recv_81f0(seq, 9)`, 9-byte answer sends `__send_81f0(seq, data)`, and
the closing `__8128` / `__8127` / `__8126` probes.  `recv 4` is
`getRandomNumber()`. -/
inductive AuthStep
  | isAuthQ
  | p81f3
  | p81f7
  | p81f0 (seq : Nat)
  | recv (seq : Nat)
  | send (seq : Nat)
  | p8128
  | p8127
  | p8126
  deriving DecidableEq

/-- Steps of one attempt up to and including the acknowledgement probe
`__81f0(5)` (lines 412-424). -/
def stepsBeforeAck : List AuthStep :=
  [.p81f3, .p81f7, .p81f0 0, .recv 1, .recv 2, .p81f0 3, .recv 4, .p81f0 5]

/-- Steps of one attempt after a successful acknowledgement, up to the
closing `__8126` (lines 428-451). -/
def stepsAfterAck : List AuthStep :=
  [.send 6, .send 7, .p81f0 0x8, .p81f0 0x9, .p81f0 0xa, .send 0xb,
   .p81f0 0xc, .p81f0 0xd, .p81f0 0xe, .recv 0xf, .p81f0 0x10, .recv 0x11,
   .p81f0 0x12, .recv 0x13, .p81f0 0x14, .p8128, .p8127, .p8126]

/-- Outcome of running `authenticate` for a bounded number of loop
iterations: terminated authenticated, terminated with the final
`ValueError` (authentication failed), or still inside the loop when the
fuel ran out. -/
inductive AuthOutcome
  | authenticated
  | authFailed
  | stillRunning
  deriving DecidableEq

/-- The `authenticate` loop (lines 410-455).  `i` counts calls to
`isAuthenticated()`, `j` counts attempts (calls to the `__81f0(5)`
acknowledgement).  Each iteration: query `isAuthenticated` (exit
authenticated when true); run the pre-acknowledgement steps; on `ack`
timeout, `continue` (the documented retry path); otherwise run the
remaining steps, re-query `isAuthenticated`, raising the fatal
`ValueError` when it is still false, and fall back to the loop head when
it is true.  Returns the outcome and the full step trace. -/
def authLoop (isA ack : Nat → Bool) : Nat → Nat → Nat → AuthOutcome × List AuthStep
  | 0, _, _ => (.stillRunning, [])
  | fuel + 1, i, j =>
      if isA i then (.authenticated, [.isAuthQ])
      else if ack j then
        if isA (i + 1) then
          let r := authLoop isA ack fuel (i + 2) (j + 1)
          (r.1, .isAuthQ :: (stepsBeforeAck ++ stepsAfterAck ++ [.isAuthQ]) ++ r.2)
        else (.authFailed, .isAuthQ :: (stepsBeforeAck ++ stepsAfterAck ++ [.isAuthQ]))
      else
        let r := authLoop isA ack fuel (i + 1) (j + 1)
        (r.1, .isAuthQ :: stepsBeforeAck ++ r.2)

/-- `authenticate()` run for at most `fuel` loop iterations against the
oracle-modelled device. -/
def authenticate (isA ack : Nat → Bool) (fuel : Nat) : AuthOutcome × List AuthStep :=
  authLoop isA ack fuel 0 0

/-- The wire-order step trace of an `authenticate()` run that times out at
the acknowledgement `k` times and then completes: `k` aborted attempts
(head `isAuthenticated` query plus the pre-acknowledgement steps), one
full attempt, its closing `isAuthenticated` query, and the loop-head
re-query that observes success. -/
def kTimeoutTrace (k : Nat) : List AuthStep :=
  (List.replicate k ([AuthStep.isAuthQ] ++ stepsBeforeAck)).flatten
    ++ ([AuthStep.isAuthQ] ++ stepsBeforeAck ++ stepsAfterAck
        ++ [AuthStep.isAuthQ, AuthStep.isAuthQ])

/-! ## Frame-codec lemmas -/

/-- Behaviour of the long-response accumulation loop when the packet
stream holds at least the declared length: it consumes a leading slice of
the stream, stops once the accumulated length reaches the declared length,
and leaves the rest of the stream untouched. -/
theorem longLoop_spec (rlen : Int) (cont : List (List Nat)) :
    ∀ acc : List (List Nat),
      rlen ≤ (acc.flatten.length : Int) + (cont.flatten.length : Int) →
      ∃ consumed rest, cont = consumed ++ rest ∧
        longLoop rlen cont (acc.flatten.length : Int) acc = .ok (acc ++ consumed, rest) ∧
        rlen ≤ ((acc ++ consumed).flatten.length : Int) := by
  induction cont with
  | nil =>
      intro acc h
      simp only [List.flatten_nil, List.length_nil, Nat.cast_zero, add_zero] at h
      refine ⟨[], [], by simp, ?_, by simpa using h⟩
      unfold longLoop
      rw [if_neg (by omega)]
      simp
  | cons p ps ih =>
      intro acc h
      by_cases hlt : (acc.flatten.length : Int) < rlen
      · have hlen : ((acc ++ [p]).flatten.length : Int)
            = (acc.flatten.length : Int) + (p.length : Int) := by
          simp
        have h' : rlen ≤ ((acc ++ [p]).flatten.length : Int) + (ps.flatten.length : Int) := by
          rw [hlen]
          simp only [List.flatten_cons, List.length_append] at h
          push_cast at h ⊢
          omega
        obtain ⟨consumed, rest, hsplit, hrun, hge⟩ := ih (acc ++ [p]) h'
        refine ⟨p :: consumed, rest, by simp [hsplit], ?_, by simpa using hge⟩
        unfold longLoop
        rw [if_pos hlt]
        show longLoop rlen ps ((acc.flatten.length : Int) + (p.length : Int)) (acc ++ [p])
          = .ok (acc ++ p :: consumed, rest)
        rw [← hlen, hrun]
        simp
      · push_neg at hlt
        refine ⟨[], p :: ps, by simp, ?_, by simpa using hlt⟩
        unfold longLoop
        rw [if_neg (by omega)]
        simp

/-- C4.  `_longResponseRead`: when the first packet's status byte is not
`RESPONSE_STATUS_SUCCES`, it returns that status with an empty payload and
consumes no further packets.  When the status is success, the two bytes
after it are decoded as the little-endian (signed) 16-bit declared length,
raw continuation packets are appended until the accumulated payload covers
it, and the returned payload is a byte-identical prefix of the transport's
byte stream — its first `declared_length` bytes agree with the stream
regardless of the split points (the payload may run past the declared
length; callers trim). -/
theorem C4_longResponseRead_reassembly :
    (∀ (p : List Nat) (ps : List (List Nat)),
        p.take 1 = [RESPONSE_CODE] →
        (p.drop 1).take 1 ≠ [RESPONSE_STATUS_SUCCES] →
        _longResponseRead (p :: ps) = .ok (((p.drop 1).take 1, []), ps)) ∧
    (∀ (lo hi : Nat) (chunk : List Nat) (cont : List (List Nat)),
        sInt16 lo hi ≤ (chunk.length : Int) + (cont.flatten.length : Int) →
        ∃ payload rest,
          _longResponseRead
              ((RESPONSE_CODE :: RESPONSE_STATUS_SUCCES :: lo :: hi :: chunk) :: cont)
            = .ok (([RESPONSE_STATUS_SUCCES], payload), rest) ∧
          sInt16 lo hi ≤ (payload.length : Int) ∧
          payload ++ rest.flatten = chunk ++ cont.flatten ∧
          payload.take (sInt16 lo hi).toNat
            = (chunk ++ cont.flatten).take (sInt16 lo hi).toNat) := by
  constructor
  · intro p ps h1 h2
    simp only [_longResponseRead, _responseRead, if_pos h1]
    rw [if_neg h2]
  · intro lo hi chunk cont h
    have hacc : ([chunk] : List (List Nat)).flatten = chunk := by simp
    obtain ⟨consumed, rest, hsplit, hrun, hge⟩ :=
      longLoop_spec (sInt16 lo hi) cont [chunk] (by rw [hacc]; exact h)
    have hrun' : longLoop (sInt16 lo hi) cont ((chunk.length : Nat) : Int) [chunk]
        = .ok ([chunk] ++ consumed, rest) := by
      rw [← hrun]
      congr 1
      simp
    refine ⟨([chunk] ++ consumed).flatten, rest, ?_, ?_, ?_, ?_⟩
    · have hred : _longResponseRead
          ((RESPONSE_CODE :: RESPONSE_STATUS_SUCCES :: lo :: hi :: chunk) :: cont)
          = (match longLoop (sInt16 lo hi) cont ((chunk.length : Nat) : Int) [chunk] with
             | .error e => .error e
             | .ok (acc, rest) => .ok (([RESPONSE_STATUS_SUCCES], acc.flatten), rest)) := rfl
      rw [hred, hrun']
    · rw [← hacc] at hge ⊢
      simpa using hge
    · rw [hsplit]
      simp
    · have hlen : (sInt16 lo hi).toNat ≤ ([chunk] ++ consumed).flatten.length := by
        omega
      rw [hsplit]
      have hj : chunk ++ (consumed ++ rest).flatten
          = ([chunk] ++ consumed).flatten ++ rest.flatten := by simp
      rw [hj, List.take_append_of_le_length hlen]

/-- C4 witness: the two parts of the reassembly theorem applied to concrete
packet streams — a non-success status returned verbatim with no packet
consumed, and a declared length of 2 reassembled from an empty first chunk
plus one continuation packet. -/
theorem C4_witness :
    _longResponseRead [[0x55, 0xaf, 1, 2], [3]] = .ok (([0xaf], []), [[3]]) ∧
    ∃ payload rest,
      _longResponseRead [[0x55, 0x5a, 2, 0], [7, 8], [9]]
        = .ok (([RESPONSE_STATUS_SUCCES], payload), rest) ∧
      sInt16 2 0 ≤ (payload.length : Int) ∧
      payload ++ rest.flatten = [] ++ ([[7, 8], [9]] : List (List Nat)).flatten ∧
      payload.take (sInt16 2 0).toNat
        = (([] : List Nat) ++ ([[7, 8], [9]] : List (List Nat)).flatten).take (sInt16 2 0).toNat := by
  constructor
  · exact C4_longResponseRead_reassembly.1 [0x55, 0xaf, 1, 2] [[3]] (by decide) (by decide)
  · exact C4_longResponseRead_reassembly.2 2 0 [] [[7, 8], [9]] (by decide)

/-- C6.  `isAuthenticated` returns `false` exactly when the long-response
status is `0xaf`, returns `true` exactly when the status is
`RESPONSE_STATUS_SUCCES` and the stripped 2-byte payload is the sentinel
`0x2b 0x55`, and raises (`AssertionError`) for every other
status/payload combination. -/
theorem C6_isAuthenticated_status (ps ps' : List (List Nat)) (rcode data : List Nat)
    (h : _longResponseRead ps = .ok ((rcode, data), ps')) :
    (isAuthenticated ps = .ok (false, ps') ↔ rcode = [0xaf]) ∧
    (isAuthenticated ps = .ok (true, ps') ↔
      rcode = [RESPONSE_STATUS_SUCCES] ∧ _stripResponse data 2 = some [0x2b, 0x55]) ∧
    (rcode ≠ [0xaf] →
      ¬(rcode = [RESPONSE_STATUS_SUCCES] ∧ _stripResponse data 2 = some [0x2b, 0x55]) →
      isAuthenticated ps = .error .assertError) := by
  have hred : isAuthenticated ps =
      (if rcode = [0xaf] then .ok (false, ps')
       else if rcode = [RESPONSE_STATUS_SUCCES] then
         match _stripResponse data 2 with
         | some response =>
             if response = [0x2b, 0x55] then .ok (true, ps') else .error .assertError
         | none => .error .assertError
       else .error .assertError) := by
    unfold isAuthenticated
    rw [h]
  rw [hred]
  by_cases haf : rcode = [0xaf]
  · rw [if_pos haf]
    refine ⟨by simp [haf], by simp [haf, RESPONSE_STATUS_SUCCES], fun h1 _ => absurd haf h1⟩
  · rw [if_neg haf]
    by_cases hsc : rcode = [RESPONSE_STATUS_SUCCES]
    · rw [if_pos hsc]
      cases hs : _stripResponse data 2 with
      | none => simp [haf, hsc, hs, RESPONSE_STATUS_SUCCES]
      | some r =>
          by_cases hr : r = [0x2b, 0x55]
          · subst hr
            simp [haf, hsc, hs, RESPONSE_STATUS_SUCCES]
          · simp [haf, hsc, hs, hr, RESPONSE_STATUS_SUCCES]
    · rw [if_neg hsc]
      simp [haf, hsc]

/-- C6 witness: the status characterization applied to a one-packet stream
with status `0xaf`. -/
theorem C6_witness :
    (isAuthenticated [[0x55, 0xaf]] = .ok (false, []) ↔ ([0xaf] : List Nat) = [0xaf]) ∧
    (isAuthenticated [[0x55, 0xaf]] = .ok (true, []) ↔
      ([0xaf] : List Nat) = [RESPONSE_STATUS_SUCCES] ∧
        _stripResponse [] 2 = some [0x2b, 0x55]) ∧
    (([0xaf] : List Nat) ≠ [0xaf] →
      ¬(([0xaf] : List Nat) = [RESPONSE_STATUS_SUCCES] ∧
          _stripResponse [] 2 = some [0x2b, 0x55]) →
      isAuthenticated [[0x55, 0xaf]] = .error .assertError) :=
  C6_isAuthenticated_status [[0x55, 0xaf]] [] [0xaf] [] (by decide)

/-- C8.  A response packet whose first byte is not `RESPONSE_CODE` makes
`_responseRead` fail with the framing `ValueError`, and that failure
propagates unswallowed through `_longResponseRead` and through the
operations built on them (`isAuthenticated`, `getCardType`); continuation
packets of a long response are consumed raw and are exempt from the marker
check (any first byte is accepted). -/
theorem C8_framing_fatal :
    (∀ (p : List Nat) (ps : List (List Nat)), p.take 1 ≠ [RESPONSE_CODE] →
        _responseRead (p :: ps) = .error .framingError ∧
        _longResponseRead (p :: ps) = .error .framingError ∧
        isAuthenticated (p :: ps) = .error .framingError ∧
        getCardType (p :: ps) = .error .framingError) ∧
    (∀ (c : List Nat) (ps' : List (List Nat)), 2 ≤ c.length →
        _longResponseRead ([RESPONSE_CODE, RESPONSE_STATUS_SUCCES, 2, 0] :: c :: ps')
          = .ok (([RESPONSE_STATUS_SUCCES], c), ps')) := by
  constructor
  · intro p ps hp
    have h0 : _responseRead (p :: ps) = .error .framingError := by
      show (if p.take 1 = [RESPONSE_CODE] then Except.ok (p.drop 1, ps)
            else (Except.error Err.framingError : Except Err (List Nat × List (List Nat))))
          = .error .framingError
      rw [if_neg hp]
    have h1 : _longResponseRead (p :: ps) = .error .framingError := by
      unfold _longResponseRead
      rw [h0]
    refine ⟨h0, h1, ?_, ?_⟩
    · unfold isAuthenticated
      rw [h1]
    · unfold getCardType
      rw [h0]
  · intro c ps' hc
    have hred : _longResponseRead ([RESPONSE_CODE, RESPONSE_STATUS_SUCCES, 2, 0] :: c :: ps')
        = (match longLoop (sInt16 2 0) (c :: ps') (0 : Int) [[]] with
           | .error e => .error e
           | .ok (acc, rest) => .ok (([RESPONSE_STATUS_SUCCES], acc.flatten), rest)) := rfl
    have hstep1 : longLoop (sInt16 2 0) (c :: ps') (0 : Int) [[]]
        = longLoop (sInt16 2 0) ps' ((0 : Int) + (c.length : Int)) ([[]] ++ [c]) := by
      conv_lhs => unfold longLoop
      rw [if_pos (by decide)]
    have hstep2 : longLoop (sInt16 2 0) ps' ((0 : Int) + (c.length : Int)) ([[]] ++ [c])
        = .ok ([[]] ++ [c], ps') := by
      conv_lhs => unfold longLoop
      rw [if_neg ?hne]
      case hne =>
        have h2 : sInt16 2 0 = 2 := by decide
        rw [h2]
        omega
    rw [hred, hstep1, hstep2]
    simp

/-- C8 witness: a packet starting with `0x00` instead of the marker is a
framing error at every layer, and a continuation packet starting with an
arbitrary non-marker byte is still accepted raw. -/
theorem C8_witness :
    (_responseRead [[0x00, 1], [5]] = .error .framingError ∧
     _longResponseRead [[0x00, 1], [5]] = .error .framingError ∧
     isAuthenticated [[0x00, 1], [5]] = .error .framingError ∧
     getCardType [[0x00, 1], [5]] = .error .framingError) ∧
    _longResponseRead [[RESPONSE_CODE, RESPONSE_STATUS_SUCCES, 2, 0], [0x00, 6], [9]]
      = .ok (([RESPONSE_STATUS_SUCCES], [0x00, 6]), [[9]]) :=
  ⟨C8_framing_fatal.1 [0x00, 1] [[5]] (by decide),
   C8_framing_fatal.2 [0x00, 6] [[9]] (by decide)⟩

/-- C9 counterexample: a 1-byte card-type response equal to `7` — outside
`{0, 1, 2}` — is returned as the card type, not rejected: `getCardType`
yields no error of any kind on it. -/
theorem C9_counterexample :
    getCardType [[0x55, 7]] = .ok (7, []) ∧
    (∀ e : Err, getCardType [[0x55, 7]] ≠ .error e) ∧
    ¬((7 : Nat) = 0 ∨ (7 : Nat) = 1 ∨ (7 : Nat) = 2) := by
  refine ⟨by decide, ?_, by decide⟩
  intro e he
  rw [show getCardType [[0x55, 7]] = .ok (7, []) from by decide] at he
  exact Except.noConfusion he

/-- C9 (amended).  `getCardType` requires a 1-byte response payload —
any other response length fails the `assert` — but performs no validation
of the payload value: whatever byte arrives is returned as the card type
(values outside `{0, 1, 2}` included; the unknown-type rejection happens
later, in `read`/`write`). -/
theorem C9_getCardType_amended :
    (∀ (b : Nat) (ps : List (List Nat)), getCardType ([RESPONSE_CODE, b] :: ps) = .ok (b, ps)) ∧
    (∀ (p : List Nat) (ps : List (List Nat)), p.take 1 = [RESPONSE_CODE] →
        (p.drop 1).length ≠ 1 → getCardType (p :: ps) = .error .assertError) := by
  constructor
  · intro b ps
    rfl
  · intro p ps hp hl
    have h0 : _responseRead (p :: ps) = .ok (p.drop 1, ps) := by
      show (if p.take 1 = [RESPONSE_CODE] then Except.ok (p.drop 1, ps)
            else (Except.error Err.framingError : Except Err (List Nat × List (List Nat))))
          = .ok (p.drop 1, ps)
      rw [if_pos hp]
    unfold getCardType
    rw [h0]
    show (if (p.drop 1).length = 1 then Except.ok ((p.drop 1).getD 0 0, ps)
          else (Except.error Err.assertError : Except Err (Nat × List (List Nat))))
        = .error .assertError
    rw [if_neg hl]

/-- C9 witness: `getCardType` on a valid 1-byte response returns the byte,
and on a marker-only packet (empty response) fails the length assert. -/
theorem C9_witness :
    getCardType [[RESPONSE_CODE, 1]] = .ok (1, []) ∧
    getCardType [[0x55]] = .error .assertError :=
  ⟨C9_getCardType_amended.1 1 [], C9_getCardType_amended.2 [0x55] [] (by decide) (by decide)⟩

set_option maxRecDepth 4000 in
/-- C5.  `writeFrame` never reaches the transport: for every frame number,
data and packet stream it performs no bulk write and raises — in
particular, on a well-formed call (frame 0, `0x80` data bytes) it raises
the Python 3 `TypeError` produced by `''.join` applied to the bytes
objects of the command body, before anything is sent.  The intended
command layout and response validation (lines 149-168) are dead code. -/
theorem C5_writeFrame_typeError :
    (∀ (frame_number : Nat) (data : List Nat) (ps : List (List Nat)),
        (writeFrame frame_number data ps).2 = [] ∧
        ∃ e, (writeFrame frame_number data ps).1 = .error e) ∧
    writeFrame 0 (List.replicate FRAME_LENGTH 0) [] = (.error .typeError, []) := by
  constructor
  · intro frame_number data ps
    unfold writeFrame
    by_cases hl : data.length = FRAME_LENGTH
    · rw [if_pos hl]
      cases packUInt16BE frame_number with
      | none => exact ⟨rfl, .structError, rfl⟩
      | some enc => exact ⟨rfl, .typeError, rfl⟩
    · rw [if_neg hl]
      exact ⟨rfl, .assertError, rfl⟩
  · show writeFrame 0 (List.replicate 0x80 0) [] = (.error .typeError, [])
    rfl

/-- C2 (code-bug evaluation).  `read(offset, 0)` at a block-aligned
offset: the accumulation loop never runs (`result_len = 0` is not
`< length = 0`), so `result` is the empty list and the statement
`result[0] = result[0][start_offset:]` raises `IndexError` instead of
returning the expected 0 bytes — for both card types, with no block
command issued. -/
theorem C2_read_zero_length_crash :
    read (fun _ => List.replicate FRAME_LENGTH 0) 1 0 0 = (.error .indexError, []) ∧
    read (fun _ => List.replicate PAGE_LENGTH 0) 2 0 0 = (.error .indexError, []) ∧
    read (fun _ => List.replicate FRAME_LENGTH 0) 1 FRAME_LENGTH 0 = (.error .indexError, []) := by
  refine ⟨by decide, by decide, by decide⟩

/-! ## Block I/O lemmas -/

/-- The bytes of consecutive blocks `cb, cb+1, …, cb+n-1` of a block
store, concatenated. -/
def blockJoin (readB : Nat → List Nat) (cb n : Nat) : List Nat :=
  ((List.range n).map (fun k => readB (cb + k))).flatten

/-- Length of the last element of a list of lists (0 when empty). -/
def lastLen : List (List Nat) → Nat
  | [] => 0
  | [l] => l.length
  | _ :: x :: xs => lastLen (x :: xs)

/-- The last element's length is at most the flattened length. -/
theorem lastLen_le_flatten_length : ∀ R : List (List Nat), lastLen R ≤ R.flatten.length
  | [] => by simp [lastLen]
  | [l] => by simp [lastLen]
  | x :: y :: ys => by
      show lastLen (y :: ys) ≤ (x :: y :: ys).flatten.length
      calc lastLen (y :: ys) ≤ (y :: ys).flatten.length := lastLen_le_flatten_length (y :: ys)
        _ ≤ (x :: y :: ys).flatten.length := by simp

/-- Trimming `excess ≤` the last element's length off the last element is
trimming it off the flattened list. -/
theorem trimLast_flatten : ∀ (R : List (List Nat)) (excess : Nat),
    excess ≤ lastLen R →
    (trimLast R excess).flatten = R.flatten.take (R.flatten.length - excess)
  | [], _, _ => by simp [trimLast]
  | [l], excess, _ => by simp [trimLast, lastLen]
  | x :: y :: ys, excess, h => by
      have htail : excess ≤ (y :: ys).flatten.length := by
        calc excess ≤ lastLen (y :: ys) := h
        _ ≤ (y :: ys).flatten.length := lastLen_le_flatten_length (y :: ys)
      have ih := trimLast_flatten (y :: ys) excess h
      show x ++ (trimLast (y :: ys) excess).flatten
          = ((x :: y :: ys).flatten).take ((x :: y :: ys).flatten.length - excess)
      rw [ih]
      have h1 : (x :: y :: ys).flatten = x ++ (y :: ys).flatten := by simp
      rw [h1, List.length_append]
      have h2 : x.length + (y :: ys).flatten.length - excess
          = x.length + ((y :: ys).flatten.length - excess) := by omega
      rw [h2, List.take_append]

/-- Ceiling division `⌈x / B⌉` written as the source's `(x + B - 1) / B`,
split on whether `B` divides `x`. -/
theorem ceil_div_eq (B x : Nat) (hB : 0 < B) :
    (x + B - 1) / B = x / B + (if x % B = 0 then 0 else 1) := by
  have hdm := Nat.div_add_mod x B
  have hmlt : x % B < B := Nat.mod_lt x hB
  by_cases h0 : x % B = 0
  · rw [if_pos h0]
    have hx : x + B - 1 = B * (x / B) + (B - 1) := by omega
    rw [hx, Nat.mul_add_div hB, Nat.div_eq_of_lt (show B - 1 < B from by omega)]
  · rw [if_neg h0]
    have hBq : B * (x / B + 1) = B * (x / B) + B := by ring
    have hx : x + B - 1 = B * (x / B + 1) + (x % B - 1) := by
      rw [hBq]
      omega
    rw [hx, Nat.mul_add_div hB, Nat.div_eq_of_lt (show x % B - 1 < B from by omega)]

/-- Flattening the `B`-sized chunks of a list of length `n * B` gives the
list back. -/
theorem chunks_flatten (B : Nat) :
    ∀ (n : Nat) (V : List Nat), V.length = n * B →
      ((List.range n).map (fun k => (V.drop (k * B)).take B)).flatten = V
  | 0, V, h => by
      have : V = [] := by
        rw [← List.length_eq_zero]
        simpa using h
      simp [this]
  | n + 1, V, h => by
      rw [List.range_succ_eq_map]
      simp only [List.map_cons, List.map_map, List.flatten_cons, Nat.zero_mul, List.drop_zero]
      have hmap : (List.range n).map ((fun k => (V.drop (k * B)).take B) ∘ Nat.succ)
          = (List.range n).map (fun k => ((V.drop B).drop (k * B)).take B) := by
        apply List.map_congr_left
        intro k _
        simp only [Function.comp]
        have harith : Nat.succ k * B = B + k * B := by
          rw [Nat.succ_mul]
          omega
        rw [List.drop_drop, ← harith]
      rw [hmap, chunks_flatten B n (V.drop B)
        (by rw [List.length_drop, h, Nat.succ_mul]; omega)]
      exact List.take_append_drop B V

/-- Length of `blockJoin` over well-sized blocks. -/
theorem blockJoin_length (readB : Nat → List Nat) (B : Nat)
    (hw : ∀ i, (readB i).length = B) :
    ∀ (n cb : Nat), (blockJoin readB cb n).length = n * B
  | 0, cb => by simp [blockJoin]
  | n + 1, cb => by
      unfold blockJoin
      rw [List.range_succ_eq_map]
      simp only [List.map_cons, List.map_map, List.flatten_cons, List.length_append, Nat.add_zero]
      have := blockJoin_length readB B hw n (cb + 1)
      unfold blockJoin at this
      have hmap : (List.range n).map ((fun k => readB (cb + k)) ∘ Nat.succ)
          = (List.range n).map (fun k => readB (cb + 1 + k)) := by
        apply List.map_congr_left
        intro k _
        simp only [Function.comp]
        congr 1
        omega
      rw [hmap, this, hw cb]
      ring

/-- The read-accumulation loop on a store of well-sized blocks reads
exactly `⌈need / B⌉` consecutive blocks, in order, and never fails,
provided the iteration budget covers `need` (which the entry point
guarantees). -/
theorem readLoopAux_spec (readB : Nat → List Nat) (B : Nat) (hB : 0 < B)
    (hw : ∀ i, (readB i).length = B) :
    ∀ (fuel need cur : Nat), need ≤ fuel →
      readLoopAux readB B fuel cur need
        = ((List.range ((need + B - 1) / B)).map (fun k => BOp.rd (cur + k)),
           some ((List.range ((need + B - 1) / B)).map (fun k => readB (cur + k)))) := by
  intro fuel
  induction fuel with
  | zero =>
      intro need cur hle
      have h0 : need = 0 := by omega
      subst h0
      rw [show (0 + B - 1) / B = 0 from Nat.div_eq_of_lt (by omega)]
      simp [readLoopAux]
  | succ fuel ih =>
      intro need cur hle
      by_cases h0 : need = 0
      · subst h0
        rw [show (0 + B - 1) / B = 0 from Nat.div_eq_of_lt (by omega)]
        simp [readLoopAux]
      · have hstep : readLoopAux readB B (fuel + 1) cur need
            = (BOp.rd cur :: (readLoopAux readB B fuel (cur + 1) (need - B)).1,
               (readLoopAux readB B fuel (cur + 1) (need - B)).2.map (readB cur :: ·)) := by
          conv_lhs => unfold readLoopAux
          rw [if_neg h0, if_pos (hw cur)]
        have hrec := ih (need - B) (cur + 1) (by omega)
        have hn : (need + B - 1) / B = (need - B + B - 1) / B + 1 := by
          have h1 : (need + B - 1) / B = (need + B - 1 - B) / B + 1 :=
            Nat.div_eq_sub_div hB (by omega)
          have h2 : need + B - 1 - B = need - 1 := by omega
          by_cases hbig : B ≤ need
          · have h3 : need - B + B - 1 = need - 1 := by omega
            rw [h1, h2, h3]
          · have h3 : need - B = 0 := by omega
            rw [h1, h2, h3]
            have h4 : (need - 1) / B = 0 := Nat.div_eq_of_lt (by omega)
            have h5 : (0 + B - 1) / B = 0 := Nat.div_eq_of_lt (by omega)
            rw [h4, h5]
        have hm1 : (List.range ((need - B + B - 1) / B + 1)).map (fun k => BOp.rd (cur + k))
            = BOp.rd cur
              :: (List.range ((need - B + B - 1) / B)).map (fun k => BOp.rd (cur + 1 + k)) := by
          rw [List.range_succ_eq_map]
          simp only [List.map_cons, List.map_map, Nat.add_zero]
          congr 1
          apply List.map_congr_left
          intro k _
          simp only [Function.comp]
          congr 1
          omega
        have hm2 : (List.range ((need - B + B - 1) / B + 1)).map (fun k => readB (cur + k))
            = readB cur
              :: (List.range ((need - B + B - 1) / B)).map (fun k => readB (cur + 1 + k)) := by
          rw [List.range_succ_eq_map]
          simp only [List.map_cons, List.map_map, Nat.add_zero]
          congr 1
          apply List.map_congr_left
          intro k _
          simp only [Function.comp]
          congr 1
          omega
        rw [hstep, hrec, hn, hm1, hm2]
        rfl

/-- Peeling the first element off a shifted `range`-map. -/
theorem range_succ_map_shift {α : Type} (f : Nat → α) (cur m : Nat) :
    (List.range (m + 1)).map (fun k => f (cur + k))
      = f cur :: (List.range m).map (fun k => f (cur + 1 + k)) := by
  rw [List.range_succ_eq_map]
  simp only [List.map_cons, List.map_map, Nat.add_zero]
  congr 1
  apply List.map_congr_left
  intro k _
  simp only [Function.comp]
  congr 1
  omega

/-- `lastLen` of a list whose elements all have length `B`. -/
theorem lastLen_all_eq (B : Nat) : ∀ R : List (List Nat),
    R ≠ [] → (∀ l ∈ R, l.length = B) → lastLen R = B
  | [], h, _ => absurd rfl h
  | [l], _, hall => by
      show l.length = B
      exact hall l (by simp)
  | x :: y :: ys, _, hall => by
      show lastLen (y :: ys) = B
      exact lastLen_all_eq B (y :: ys) (by simp) (fun l hl => hall l (by simp [hl]))

/-- Dispatching on a known card type: `read` is `readCore` at that type's
geometry. -/
theorem read_eq_readCore (readB : Nat → List Nat) (ct offset length B M : Nat)
    (hct : ct = 1 ∨ ct = 2)
    (hp : CARD_PAGE_DICT ct = some B) (hm : CARD_SIZE_DICT ct = some M) :
    read readB ct offset length = readCore readB B M offset length := by
  rcases hct with h | h <;> subst h
  · simp only [CARD_PAGE_DICT, Option.some.injEq] at hp
    simp only [CARD_SIZE_DICT, Option.some.injEq] at hm
    subst hp
    subst hm
    rfl
  · simp only [CARD_PAGE_DICT, Option.some.injEq] at hp
    simp only [CARD_SIZE_DICT, Option.some.injEq] at hm
    subst hp
    subst hm
    rfl

/-- Dispatching on a known card type: `write` is `writeCore` at that
type's geometry. -/
theorem write_eq_writeCore {σ : Type} (readB : σ → Nat → List Nat)
    (writeB : σ → Nat → List Nat → σ) (st : σ) (ct offset B M : Nat) (data : List Nat)
    (hct : ct = 1 ∨ ct = 2)
    (hp : CARD_PAGE_DICT ct = some B) (hm : CARD_SIZE_DICT ct = some M) :
    write readB writeB st ct offset data = writeCore readB writeB B M st offset data := by
  rcases hct with h | h <;> subst h
  · simp only [CARD_PAGE_DICT, Option.some.injEq] at hp
    simp only [CARD_SIZE_DICT, Option.some.injEq] at hm
    subst hp
    subst hm
    rfl
  · simp only [CARD_PAGE_DICT, Option.some.injEq] at hp
    simp only [CARD_SIZE_DICT, Option.some.injEq] at hm
    subst hp
    subst hm
    rfl

/-- Registered geometries are positive and divide the card size. -/
theorem geometry_pos (ct B M : Nat) (hct : ct = 1 ∨ ct = 2)
    (hp : CARD_PAGE_DICT ct = some B) (hm : CARD_SIZE_DICT ct = some M) :
    0 < B ∧ 0 < M := by
  rcases hct with h | h <;> subst h <;>
    simp only [CARD_PAGE_DICT, CARD_SIZE_DICT, FRAME_LENGTH, PAGE_LENGTH, PS1_CARD_SIZE,
      PS2_CARD_SIZE, Option.some.injEq] at hp hm <;>
    omega

/-- Reduction of `readCore` under an in-bounds request whose loop
collected at least one block. -/
theorem readCore_reduce (readB : Nat → List Nat) (B M offset length : Nat)
    (tr : List BOp) (b0 : List Nat) (rest : List (List Nat))
    (hbound : ¬(offset + length > M))
    (hloop : readLoop readB B (offset / B) (offset % B + length) = (tr, some (b0 :: rest))) :
    readCore readB B M offset length
      = (.ok ((if (rest.length + 1) * B > offset % B + length
            then trimLast (b0.drop (offset % B) :: rest)
              ((rest.length + 1) * B - (offset % B + length))
            else b0.drop (offset % B) :: rest).flatten), tr) := by
  simp only [readCore]
  rw [if_neg hbound, hloop]

/-- `readCore` on a store of well-sized blocks, in bounds, with a request
that makes the loop run at least once (positive length or unaligned
offset): it succeeds, reading blocks `offset/B, …` in order, and returns
the requested byte range of the store. -/
theorem readCore_ok (readB : Nat → List Nat) (B M offset length : Nat)
    (hB : 0 < B)
    (hw : ∀ i, (readB i).length = B)
    (hin : offset + length ≤ M)
    (hnz : 0 < length ∨ offset % B ≠ 0) :
    readCore readB B M offset length
      = (.ok (((blockJoin readB (offset / B) ((offset % B + length + B - 1) / B)).drop
            (offset % B)).take length),
         (List.range ((offset % B + length + B - 1) / B)).map
           (fun k => BOp.rd (offset / B + k))) := by
  obtain ⟨n, hneq⟩ : ∃ x, x = (offset % B + length + B - 1) / B := ⟨_, rfl⟩
  obtain ⟨cb, hcbeq⟩ : ∃ x, x = offset / B := ⟨_, rfl⟩
  obtain ⟨so, hsoeq⟩ : ∃ x, x = offset % B := ⟨_, rfl⟩
  have hso : so < B := by rw [hsoeq]; exact Nat.mod_lt offset hB
  have hneqs : n = (so + length + B - 1) / B := by rw [hsoeq]; exact hneq
  have hnz' : 0 < length ∨ so ≠ 0 := by rw [hsoeq]; exact hnz
  have hneed1 : 1 ≤ so + length := by rcases hnz' with h | h <;> omega
  have hn1 : 1 ≤ n := by
    rw [hneqs, Nat.one_le_div_iff hB]
    omega
  have hnlow : n * B ≤ so + length + B - 1 := by
    rw [hneqs]
    exact Nat.div_mul_le_self _ _
  have hnhigh : so + length ≤ n * B := by
    have hdm := Nat.div_add_mod (so + length + B - 1) B
    rw [← hneqs] at hdm
    have hmod : (so + length + B - 1) % B < B := Nat.mod_lt _ hB
    have hmc : n * B = B * n := Nat.mul_comm n B
    omega
  obtain ⟨m, hm'⟩ : ∃ m, n = m + 1 := ⟨n - 1, by omega⟩
  have hblocks : (List.range n).map (fun k => readB (cb + k))
      = readB cb :: (List.range m).map (fun k => readB (cb + 1 + k)) := by
    rw [hm', range_succ_map_shift]
  have hloop0 : readLoop readB B (offset / B) (offset % B + length)
      = ((List.range n).map (fun k => BOp.rd (cb + k)),
         some (readB cb :: (List.range m).map (fun k => readB (cb + 1 + k)))) := by
    unfold readLoop
    rw [readLoopAux_spec readB B hB hw (offset % B + length) (offset % B + length)
      (offset / B) (Nat.le_refl _)]
    rw [← hneq, ← hcbeq, hblocks]
  have hcore := readCore_reduce readB B M offset length
    ((List.range n).map (fun k => BOp.rd (cb + k)))
    (readB cb) ((List.range m).map (fun k => readB (cb + 1 + k)))
    (show ¬(offset + length > M) from by omega) hloop0
  rw [hcore]
  rw [← hneq, ← hcbeq, ← hsoeq]
  have hrestlen : ((List.range m).map (fun k => readB (cb + 1 + k))).length = m := by simp
  rw [hrestlen, ← hm']
  have hRflat : ((readB cb).drop so
      :: (List.range m).map (fun k => readB (cb + 1 + k))).flatten
      = (blockJoin readB cb n).drop so := by
    have hbj : blockJoin readB cb n
        = readB cb ++ ((List.range m).map (fun k => readB (cb + 1 + k))).flatten := by
      unfold blockJoin
      rw [hblocks]
      simp
    rw [hbj, List.drop_append_of_le_length (by rw [hw cb]; omega)]
    simp
  by_cases hex : n * B > so + length
  · rw [if_pos hex]
    have hlast : n * B - (so + length) ≤ lastLen ((readB cb).drop so
        :: (List.range m).map (fun k => readB (cb + 1 + k))) := by
      cases m with
      | zero =>
          show n * B - (so + length) ≤ lastLen [(readB cb).drop so]
          have hll : lastLen [(readB cb).drop so] = B - so := by
            show ((readB cb).drop so).length = B - so
            rw [List.length_drop, hw cb]
          rw [hll]
          have hn1' : n = 1 := by omega
          rw [hn1'] at hex ⊢
          omega
      | succ m' =>
          have hne : (List.range (m' + 1)).map (fun k => readB (cb + 1 + k)) ≠ [] := by
            simp
          have hlast2 : lastLen ((readB cb).drop so
              :: (List.range (m' + 1)).map (fun k => readB (cb + 1 + k)))
              = lastLen ((List.range (m' + 1)).map (fun k => readB (cb + 1 + k))) := by
            cases hq : (List.range (m' + 1)).map (fun k => readB (cb + 1 + k)) with
            | nil => exact absurd hq hne
            | cons a as => rfl
          rw [hlast2, lastLen_all_eq B _ hne]
          · omega
          · intro l hl
            obtain ⟨k, _, hk⟩ := List.mem_map.mp hl
            rw [← hk]
            exact hw (cb + 1 + k)
    rw [trimLast_flatten _ _ hlast, hRflat]
    have harith : ((blockJoin readB cb n).drop so).length - (n * B - (so + length))
        = length := by
      rw [List.length_drop, blockJoin_length readB B hw n cb]
      omega
    rw [harith]
  · rw [if_neg hex]
    rw [hRflat]
    have hle2 : ((blockJoin readB cb n).drop so).length ≤ length := by
      rw [List.length_drop, blockJoin_length readB B hw n cb]
      omega
    rw [List.take_of_length_le hle2]

/-- Peeling the first element off a `range`-map. -/
theorem range_succ_map_peel {α : Type} (g : Nat → α) (m : Nat) :
    (List.range (m + 1)).map g = g 0 :: (List.range m).map (fun k => g (k + 1)) := by
  rw [List.range_succ_eq_map]
  simp only [List.map_cons, List.map_map]
  congr 1

/-- The full-block write loop on the echo device: writes
`len(data) / B` consecutive blocks taken from `data`, returns the
advanced block index and the leftover `data[q*B:]`, and its trace is
exactly those block writes.  The final store holds the written chunks on
the written window and is untouched elsewhere. -/
theorem writeLoopAux_echo_spec (B : Nat) (hB : 0 < B) :
    ∀ (fuel : Nat) (data : List Nat) (st : Nat → List Nat) (cb : Nat),
      data.length ≤ fuel →
      (∀ j, (writeLoopAux echoWrite B fuel st cb data).1 j
          = if cb ≤ j ∧ j < cb + data.length / B
            then (data.drop ((j - cb) * B)).take B else st j) ∧
      (writeLoopAux echoWrite B fuel st cb data).2.1 = cb + data.length / B ∧
      (writeLoopAux echoWrite B fuel st cb data).2.2.1 = data.drop (data.length / B * B) ∧
      (writeLoopAux echoWrite B fuel st cb data).2.2.2
        = (List.range (data.length / B)).map
            (fun k => BOp.wr (cb + k) ((data.drop (k * B)).take B)) := by
  intro fuel
  induction fuel with
  | zero =>
      intro data st cb hle
      have h0 : data.length = 0 := by omega
      have hdnil : data = [] := List.length_eq_zero.mp h0
      subst hdnil
      refine ⟨?_, by simp [writeLoopAux], by simp [writeLoopAux], by simp [writeLoopAux]⟩
      intro j
      rw [if_neg (by simp)]
      rfl
  | succ fuel ih =>
      intro data st cb hle
      by_cases hlt : data.length < B
      · have hq : data.length / B = 0 := Nat.div_eq_of_lt hlt
        have hstep : writeLoopAux echoWrite B (fuel + 1) st cb data = (st, cb, data, []) := by
          conv_lhs => unfold writeLoopAux
          rw [if_pos hlt]
        rw [hstep, hq]
        refine ⟨?_, by simp, by simp, by simp⟩
        intro j
        rw [if_neg (by omega)]
      · push_neg at hlt
        have hdl : (data.drop B).length = data.length - B := by simp
        obtain ⟨q', hq'eq⟩ : ∃ x, x = (data.length - B) / B := ⟨_, rfl⟩
        have hq1 : data.length / B = q' + 1 := by
          rw [hq'eq]
          exact Nat.div_eq_sub_div hB hlt
        have hstep : writeLoopAux echoWrite B (fuel + 1) st cb data
            = ((writeLoopAux echoWrite B fuel (echoWrite st cb (data.take B)) (cb + 1)
                  (data.drop B)).1,
               (writeLoopAux echoWrite B fuel (echoWrite st cb (data.take B)) (cb + 1)
                  (data.drop B)).2.1,
               (writeLoopAux echoWrite B fuel (echoWrite st cb (data.take B)) (cb + 1)
                  (data.drop B)).2.2.1,
               BOp.wr cb (data.take B)
                 :: (writeLoopAux echoWrite B fuel (echoWrite st cb (data.take B)) (cb + 1)
                  (data.drop B)).2.2.2) := by
          conv_lhs => unfold writeLoopAux
          rw [if_neg (by omega)]
        obtain ⟨ih1, ih2, ih3, ih4⟩ :=
          ih (data.drop B) (echoWrite st cb (data.take B)) (cb + 1) (by rw [hdl]; omega)
        rw [hdl, ← hq'eq] at ih1 ih2 ih3 ih4
        rw [hstep]
        refine ⟨?_, ?_, ?_, ?_⟩
        · intro j
          rw [ih1 j, hq1]
          by_cases hj1 : cb + 1 ≤ j ∧ j < cb + 1 + q'
          · rw [if_pos hj1, if_pos (by omega)]
            rw [List.drop_drop]
            have harith : B + (j - (cb + 1)) * B = (j - cb) * B := by
              have harm : j - cb = (j - (cb + 1)) + 1 := by omega
              rw [harm, Nat.succ_mul]
              omega
            rw [harith]
          · rw [if_neg hj1]
            by_cases hj0 : j = cb
            · rw [if_pos (by omega)]
              show echoWrite st cb (data.take B) j = (data.drop ((j - cb) * B)).take B
              rw [hj0]
              simp [echoWrite]
            · rw [if_neg (by omega)]
              show echoWrite st cb (data.take B) j = st j
              simp [echoWrite, hj0]
        · rw [ih2, hq1]
          omega
        · rw [ih3, List.drop_drop, hq1]
          have harith : B + q' * B = (q' + 1) * B := by
            rw [Nat.succ_mul]
            omega
          rw [harith]
        · rw [ih4, hq1]
          rw [range_succ_map_peel (fun k => BOp.wr (cb + k) ((data.drop (k * B)).take B))]
          simp only [Nat.add_zero, Nat.zero_mul, List.drop_zero]
          congr 1
          apply List.map_congr_left
          intro k _
          rw [List.drop_drop]
          have h1 : cb + 1 + k = cb + (k + 1) := by omega
          have h2 : B + k * B = (k + 1) * B := by
            rw [Nat.succ_mul]
            omega
          rw [h1, h2]

/-- Applying an echo-device block write to an index. -/
theorem echoWrite_apply (st : Nat → List Nat) (i : Nat) (d : List Nat) (j : Nat) :
    echoWrite st i d j = if j = i then d else st j := rfl

/-- `writeTail` on the echo device always succeeds on well-sized stores:
the loop writes the full blocks of `data` and the optional trailing
read-modify-write completes the last partial block with the stored bytes
after it.  The final store is the `blocksSpan`-block overlay of
`data ++ tailPad` and stays well-sized; the overlay's byte source has
exactly that many blocks. -/
theorem writeTail_echo_ok (B : Nat) (hB : 0 < B) (st : Nat → List Nat)
    (hw : ∀ i, (st i).length = B) (cb : Nat) (data : List Nat) :
    ∃ stF tr, writeTail echoRead echoWrite B st cb data = (.ok stF, tr)
      ∧ (∀ i, (stF i).length = B)
      ∧ (∀ j, stF j = overlayV st cb (data ++ tailPad st cb B data) B
          (blocksSpan B data.length) j)
      ∧ (data ++ tailPad st cb B data).length = blocksSpan B data.length * B := by
  obtain ⟨ih1, ih2, ih3, ih4⟩ :=
    writeLoopAux_echo_spec B hB data.length data st cb (Nat.le_refl _)
  obtain ⟨q, hq⟩ : ∃ x, x = data.length / B := ⟨_, rfl⟩
  obtain ⟨r, hr⟩ : ∃ x, x = data.length % B := ⟨_, rfl⟩
  have hdm : B * q + r = data.length := by
    rw [hq, hr]
    exact Nat.div_add_mod _ _
  have hrB : r < B := by
    rw [hr]
    exact Nat.mod_lt _ hB
  have hmc : q * B = B * q := Nat.mul_comm q B
  rw [← hq] at ih1 ih2 ih3 ih4
  have hremlen : (data.drop (q * B)).length = r := by
    rw [List.length_drop]
    omega
  by_cases hr0 : r = 0
  · have hpad : tailPad st cb B data = [] := by
      unfold tailPad
      rw [if_pos (by rw [← hr]; exact hr0)]
    have hspan : blocksSpan B data.length = q := by
      unfold blocksSpan
      rw [← hq, ← hr, if_pos hr0]
      omega
    have hcond : ¬((writeLoopAux echoWrite B data.length st cb data).2.2.1.length ≠ 0) := by
      rw [ih3, hremlen]
      omega
    have hred : writeTail echoRead echoWrite B st cb data
        = (.ok (writeLoopAux echoWrite B data.length st cb data).1,
           (writeLoopAux echoWrite B data.length st cb data).2.2.2) := by
      simp only [writeTail, writeLoop]
      rw [if_neg hcond]
    refine ⟨_, _, hred, ?_, ?_, ?_⟩
    · intro i
      rw [ih1 i]
      by_cases hji : cb ≤ i ∧ i < cb + q
      · rw [if_pos hji, List.length_take, List.length_drop]
        have h1 : (i - cb + 1) * B ≤ q * B := Nat.mul_le_mul_right B (by omega)
        have h2 : (i - cb + 1) * B = (i - cb) * B + B := by rw [Nat.succ_mul]
        omega
      · rw [if_neg hji]
        exact hw i
    · intro j
      rw [ih1 j]
      unfold overlayV
      rw [hpad, hspan, List.append_nil]
    · rw [hpad, hspan, List.append_nil]
      omega
  · have hpad : tailPad st cb B data = (st (cb + q)).drop r := by
      unfold tailPad
      rw [← hq, ← hr, if_neg hr0]
    have hspan : blocksSpan B data.length = q + 1 := by
      unfold blocksSpan
      rw [← hq, ← hr, if_neg hr0]
    have hcond : (writeLoopAux echoWrite B data.length st cb data).2.2.1.length ≠ 0 := by
      rw [ih3, hremlen]
      omega
    have hst1 : (writeLoopAux echoWrite B data.length st cb data).1 (cb + q) = st (cb + q) := by
      rw [ih1 (cb + q), if_neg (by omega)]
    have hred : writeTail echoRead echoWrite B st cb data
        = (.ok (echoWrite (writeLoopAux echoWrite B data.length st cb data).1 (cb + q)
              (data.drop (q * B) ++ (st (cb + q)).drop r)),
           (writeLoopAux echoWrite B data.length st cb data).2.2.2
             ++ [.rd (cb + q), .wr (cb + q) (data.drop (q * B) ++ (st (cb + q)).drop r)]) := by
      simp only [writeTail, writeLoop, echoRead]
      rw [if_pos hcond, ih2, ih3, hremlen, hst1, if_pos (hw (cb + q))]
    refine ⟨_, _, hred, ?_, ?_, ?_⟩
    · intro i
      rw [echoWrite_apply]
      by_cases hi : i = cb + q
      · rw [if_pos hi, List.length_append, hremlen, List.length_drop, hw (cb + q)]
        omega
      · rw [if_neg hi, ih1 i]
        by_cases hji : cb ≤ i ∧ i < cb + q
        · rw [if_pos hji, List.length_take, List.length_drop]
          have h1 : (i - cb + 1) * B ≤ q * B := Nat.mul_le_mul_right B (by omega)
          have h2 : (i - cb + 1) * B = (i - cb) * B + B := by rw [Nat.succ_mul]
          omega
        · rw [if_neg hji]
          exact hw i
    · intro j
      rw [echoWrite_apply, hpad, hspan]
      unfold overlayV
      by_cases hj : j = cb + q
      · rw [if_pos hj, if_pos (by omega)]
        rw [hj]
        have hdrop : (data ++ (st (cb + q)).drop r).drop ((cb + q - cb) * B)
            = data.drop (q * B) ++ (st (cb + q)).drop r := by
          have hcc : cb + q - cb = q := by omega
          rw [hcc, List.drop_append_of_le_length (by omega)]
        rw [hdrop]
        have hflen : (data.drop (q * B) ++ (st (cb + q)).drop r).length = B := by
          rw [List.length_append, hremlen, List.length_drop, hw (cb + q)]
          omega
        rw [List.take_of_length_le (by omega)]
      · rw [if_neg hj, ih1 j]
        by_cases hji : cb ≤ j ∧ j < cb + q
        · rw [if_pos hji, if_pos (by omega)]
          have hx : (j - cb) * B + B ≤ data.length := by
            have h1 : (j - cb + 1) * B ≤ q * B := Nat.mul_le_mul_right B (by omega)
            have h2 : (j - cb + 1) * B = (j - cb) * B + B := by rw [Nat.succ_mul]
            omega
          rw [List.drop_append_of_le_length (by omega)]
          rw [List.take_append_of_le_length (by rw [List.length_drop]; omega)]
        · rw [if_neg hji, if_neg (by omega)]
    · rw [hpad, hspan, List.length_append, List.length_drop, hw (cb + q), Nat.succ_mul]
      omega

/-- `writeTail` on the echo device with block-aligned data: no trailing
read-modify-write happens, and the trace is exactly the full-block
writes. -/
theorem writeTail_echo_aligned (B : Nat) (hB : 0 < B) (st : Nat → List Nat) (cb : Nat)
    (data : List Nat) (hr0 : data.length % B = 0) :
    ∃ stF, writeTail echoRead echoWrite B st cb data
      = (.ok stF, (List.range (data.length / B)).map
          (fun k => BOp.wr (cb + k) ((data.drop (k * B)).take B))) := by
  obtain ⟨ih1, ih2, ih3, ih4⟩ :=
    writeLoopAux_echo_spec B hB data.length data st cb (Nat.le_refl _)
  have hremlen : (data.drop (data.length / B * B)).length = 0 := by
    rw [List.length_drop]
    have hdm := Nat.div_add_mod data.length B
    have hmc : data.length / B * B = B * (data.length / B) := Nat.mul_comm _ _
    omega
  have hcond : ¬((writeLoopAux echoWrite B data.length st cb data).2.2.1.length ≠ 0) := by
    rw [ih3, hremlen]
    omega
  have hred : writeTail echoRead echoWrite B st cb data
      = (.ok (writeLoopAux echoWrite B data.length st cb data).1,
         (writeLoopAux echoWrite B data.length st cb data).2.2.2) := by
    simp only [writeTail, writeLoop]
    rw [if_neg hcond]
  exact ⟨_, by rw [hred, ih4]⟩

/-- A store that is the `m`-block overlay of `V` at `cb` has exactly `V`
as the bytes of blocks `cb, …, cb+m-1`. -/
theorem blockJoin_overlay (st stF : Nat → List Nat) (cb B m : Nat) (V : List Nat)
    (hover : ∀ j, stF j = overlayV st cb V B m j) (hVlen : V.length = m * B) :
    blockJoin stF cb m = V := by
  unfold blockJoin
  have hmapeq : (List.range m).map (fun k => stF (cb + k))
      = (List.range m).map (fun k => (V.drop (k * B)).take B) := by
    apply List.map_congr_left
    intro k hk
    rw [hover (cb + k)]
    unfold overlayV
    rw [if_pos ⟨by omega, by have := List.mem_range.mp hk; omega⟩]
    have hkk : cb + k - cb = k := by omega
    rw [hkk]
  rw [hmapeq, chunks_flatten B m V hVlen]

/-- `writeCore` on the echo device (well-sized store, in-bounds request)
succeeds, keeps every block well-sized, and afterwards the byte range
`[offset, offset + len(data))` of the store — expressed through the blocks
the corresponding read would fetch — holds exactly `data`. -/
theorem writeCore_echo_ok (B M : Nat) (hB : 0 < B) (st : Nat → List Nat)
    (hw : ∀ i, (st i).length = B) (offset : Nat) (data : List Nat)
    (hin : offset + data.length ≤ M) :
    ∃ stF tr, writeCore echoRead echoWrite B M st offset data = (.ok stF, tr)
      ∧ (∀ i, (stF i).length = B)
      ∧ ((blockJoin stF (offset / B)
            ((offset % B + data.length + B - 1) / B)).drop (offset % B)).take data.length
          = data := by
  by_cases hso0 : offset % B = 0
  · have hred : writeCore echoRead echoWrite B M st offset data
        = writeTail echoRead echoWrite B st (offset / B) data := by
      simp only [writeCore]
      rw [if_neg (show ¬(offset + data.length > M) from by omega),
        if_neg (show ¬(offset % B ≠ 0) from by omega)]
    obtain ⟨stF, tr, hwt, hwsz, hover, hVlen⟩ := writeTail_echo_ok B hB st hw (offset / B) data
    refine ⟨stF, tr, by rw [hred]; exact hwt, hwsz, ?_⟩
    have hn : (offset % B + data.length + B - 1) / B = blocksSpan B data.length := by
      rw [hso0, Nat.zero_add, ceil_div_eq B data.length hB]
      rfl
    rw [hn, blockJoin_overlay st stF (offset / B) B _ _ hover hVlen, hso0, List.drop_zero]
    exact List.take_left data _
  · have hred : writeCore echoRead echoWrite B M st offset data
        = ((writeTail echoRead echoWrite B st (offset / B)
              ((st (offset / B)).take (offset % B) ++ data)).1,
           BOp.rd (offset / B)
             :: (writeTail echoRead echoWrite B st (offset / B)
              ((st (offset / B)).take (offset % B) ++ data)).2) := by
      simp only [writeCore, echoRead]
      rw [if_neg (show ¬(offset + data.length > M) from by omega), if_pos hso0,
        if_pos (hw (offset / B))]
    obtain ⟨stF, tr, hwt, hwsz, hover, hVlen⟩ :=
      writeTail_echo_ok B hB st hw (offset / B) ((st (offset / B)).take (offset % B) ++ data)
    have hlead : ((st (offset / B)).take (offset % B)).length = offset % B := by
      have hso : offset % B < B := Nat.mod_lt offset hB
      rw [List.length_take, hw]
      omega
    have hd1len : ((st (offset / B)).take (offset % B) ++ data).length
        = offset % B + data.length := by
      rw [List.length_append, hlead]
    refine ⟨stF, BOp.rd (offset / B) :: tr, by rw [hred, hwt], hwsz, ?_⟩
    have hn : (offset % B + data.length + B - 1) / B
        = blocksSpan B ((st (offset / B)).take (offset % B) ++ data).length := by
      rw [hd1len, ceil_div_eq B _ hB]
      rfl
    rw [hn, blockJoin_overlay st stF (offset / B) B _ _ hover hVlen]
    rw [List.append_assoc, List.drop_left' hlead]
    exact List.take_left data _

/-- `writeCore` on the echo device with a block-aligned offset and a
block-multiple amount of data: the trace is exactly the consecutive
full-block writes — no block read happens. -/
theorem writeCore_echo_aligned (B M : Nat) (hB : 0 < B) (st : Nat → List Nat)
    (offset : Nat) (data : List Nat)
    (hin : offset + data.length ≤ M)
    (hso0 : offset % B = 0) (hmul : data.length % B = 0) :
    ∃ stF, writeCore echoRead echoWrite B M st offset data
      = (.ok stF, (List.range (data.length / B)).map
          (fun k => BOp.wr (offset / B + k) ((data.drop (k * B)).take B))) := by
  have hred : writeCore echoRead echoWrite B M st offset data
      = writeTail echoRead echoWrite B st (offset / B) data := by
    simp only [writeCore]
    rw [if_neg (show ¬(offset + data.length > M) from by omega),
      if_neg (show ¬(offset % B ≠ 0) from by omega)]
  obtain ⟨stF, hwt⟩ := writeTail_echo_aligned B hB st (offset / B) data hmul
  exact ⟨stF, by rw [hred, hwt]⟩

/-- Ceiling-of-division bound: `⌈x/B⌉ · B ≥ x`. -/
theorem ceil_mul_ge (B x : Nat) (hB : 0 < B) : x ≤ (x + B - 1) / B * B := by
  obtain ⟨n, hn⟩ : ∃ y, y = (x + B - 1) / B := ⟨_, rfl⟩
  obtain ⟨r, hr⟩ : ∃ y, y = (x + B - 1) % B := ⟨_, rfl⟩
  have hdm : B * n + r = x + B - 1 := by
    rw [hn, hr]
    exact Nat.div_add_mod _ _
  have hrB : r < B := by
    rw [hr]
    exact Nat.mod_lt _ hB
  rw [← hn]
  have hmc : n * B = B * n := Nat.mul_comm n B
  omega

/-- C1 counterexample: the round trip fails as universally stated.  On a
PS1 echo device, `write(0, b'')` succeeds (and changes nothing), but the
follow-up `read(0, 0)` — block-aligned offset, zero length — raises
`IndexError` instead of returning the written (empty) data. -/
theorem C1_counterexample :
    (write echoRead echoWrite (fun _ => List.replicate FRAME_LENGTH 0) 1 0 []).1
      = .ok (fun _ => List.replicate FRAME_LENGTH 0) ∧
    read (fun _ => List.replicate FRAME_LENGTH 0) 1 0 0 = (.error .indexError, []) := by
  exact ⟨rfl, by decide⟩

/-- C1 (amended).  For both card types, against the echo device with
well-sized blocks: for every in-range request whose data is non-empty or
whose offset is not block-aligned, `write(offset, data)` followed by
`read(offset, len(data))` succeeds and returns `data` unchanged.  (The
excluded case — empty data at a block-aligned offset — crashes in `read`,
see the counterexample.) -/
theorem C1_roundtrip_amended (ct offset B M : Nat) (data : List Nat) (st : Nat → List Nat)
    (hct : ct = 1 ∨ ct = 2)
    (hp : CARD_PAGE_DICT ct = some B) (hm : CARD_SIZE_DICT ct = some M)
    (hw : ∀ i, (st i).length = B)
    (hin : offset + data.length ≤ M)
    (hnz : 0 < data.length ∨ offset % B ≠ 0) :
    ∃ stF trW,
      write echoRead echoWrite st ct offset data = (.ok stF, trW) ∧
      read stF ct offset data.length
        = (.ok data, (List.range ((offset % B + data.length + B - 1) / B)).map
            (fun k => BOp.rd (offset / B + k))) := by
  have hB : 0 < B := (geometry_pos ct B M hct hp hm).1
  obtain ⟨stF, trW, hwc, hwsz, hbytes⟩ := writeCore_echo_ok B M hB st hw offset data hin
  refine ⟨stF, trW, ?_, ?_⟩
  · rw [write_eq_writeCore echoRead echoWrite st ct offset B M data hct hp hm]
    exact hwc
  · rw [read_eq_readCore stF ct offset data.length B M hct hp hm]
    rw [readCore_ok stF B M offset data.length hB hwsz hin hnz]
    rw [hbytes]

/-- C1 witness: a 3-byte write straddling the first PS1 frame boundary at
offset `0x7f`, read back unchanged. -/
theorem C1_witness :
    ∃ stF trW,
      write echoRead echoWrite (fun _ => List.replicate 0x80 9) 1 0x7f [1, 2, 3]
          = (.ok stF, trW) ∧
      read stF 1 0x7f (List.length [1, 2, 3])
        = (.ok [1, 2, 3], (List.range ((0x7f % 0x80 + List.length [1, 2, 3] + 0x80 - 1) / 0x80)).map
            (fun k => BOp.rd (0x7f / 0x80 + k))) :=
  C1_roundtrip_amended 1 0x7f 0x80 0x20000 [1, 2, 3] (fun _ => List.replicate 0x80 9)
    (Or.inl rfl) rfl rfl (fun i => by simp) (by decide) (Or.inl (by decide))

/-- C7 counterexample: the boundary case `offset + length == total_size`
does not always succeed — `read(total_size, 0)` on a PS1 card (offset
block-aligned, zero length) raises `IndexError` (not even `OutOfRange`). -/
theorem C7_counterexample :
    read (fun _ => List.replicate FRAME_LENGTH 0) 1 PS1_CARD_SIZE 0
      = (.error .indexError, []) ∧
    Err.indexError ≠ Err.outOfRange := by
  exact ⟨by decide, by decide⟩

/-- C7 (amended).  For both card types: `read` and `write` fail with
`OutOfRange` as soon as `offset + length` (resp. `offset + len(data)`)
exceeds the card size, with no block command issued (empty trace); the
boundary case `offset + length == total_size` succeeds for `read`
whenever `length ≥ 1` and for `write` always (the remaining boundary
case, a zero-length read at `offset = total_size`, crashes — see the
counterexample). -/
theorem C7_bounds_amended :
    (∀ (readB : Nat → List Nat) (ct offset length B M : Nat),
        (ct = 1 ∨ ct = 2) → CARD_PAGE_DICT ct = some B → CARD_SIZE_DICT ct = some M →
        offset + length > M →
        read readB ct offset length = (.error .outOfRange, [])) ∧
    (∀ (st : Nat → List Nat) (ct offset B M : Nat) (data : List Nat),
        (ct = 1 ∨ ct = 2) → CARD_PAGE_DICT ct = some B → CARD_SIZE_DICT ct = some M →
        offset + data.length > M →
        write echoRead echoWrite st ct offset data = (.error .outOfRange, [])) ∧
    (∀ (st : Nat → List Nat) (ct offset length B M : Nat),
        (ct = 1 ∨ ct = 2) → CARD_PAGE_DICT ct = some B → CARD_SIZE_DICT ct = some M →
        (∀ i, (st i).length = B) → offset + length = M → 1 ≤ length →
        ∃ l tr, read st ct offset length = (.ok l, tr) ∧ l.length = length) ∧
    (∀ (st : Nat → List Nat) (ct offset B M : Nat) (data : List Nat),
        (ct = 1 ∨ ct = 2) → CARD_PAGE_DICT ct = some B → CARD_SIZE_DICT ct = some M →
        (∀ i, (st i).length = B) → offset + data.length = M →
        ∃ stF tr, write echoRead echoWrite st ct offset data = (.ok stF, tr)) := by
  refine ⟨?_, ?_, ?_, ?_⟩
  · intro readB ct offset length B M hct hp hm hgt
    rw [read_eq_readCore readB ct offset length B M hct hp hm]
    unfold readCore
    rw [if_pos hgt]
  · intro st ct offset B M data hct hp hm hgt
    rw [write_eq_writeCore echoRead echoWrite st ct offset B M data hct hp hm]
    unfold writeCore
    rw [if_pos hgt]
  · intro st ct offset length B M hct hp hm hw hbd hlen1
    have hB : 0 < B := (geometry_pos ct B M hct hp hm).1
    rw [read_eq_readCore st ct offset length B M hct hp hm]
    rw [readCore_ok st B M offset length hB hw (by omega) (Or.inl (by omega))]
    refine ⟨_, _, rfl, ?_⟩
    rw [List.length_take, List.length_drop, blockJoin_length st B hw _ _]
    have hge := ceil_mul_ge B (offset % B + length) hB
    have hso : offset % B < B := Nat.mod_lt offset hB
    omega
  · intro st ct offset B M data hct hp hm hw hbd
    have hB : 0 < B := (geometry_pos ct B M hct hp hm).1
    rw [write_eq_writeCore echoRead echoWrite st ct offset B M data hct hp hm]
    obtain ⟨stF, tr, hwc, _, _⟩ := writeCore_echo_ok B M hB st hw offset data (by omega)
    exact ⟨stF, tr, hwc⟩

/-- C7 witness: on PS1 — a read one byte past the end fails `OutOfRange`
with no block command; a two-byte write past the end likewise; the
boundary read of the last frame succeeds with the right length; the
boundary write of nothing at `offset = total_size` succeeds. -/
theorem C7_witness :
    read (fun _ => List.replicate 0x80 0) 1 0x20000 1 = (.error .outOfRange, []) ∧
    write echoRead echoWrite (fun _ => List.replicate 0x80 0) 1 0x1ffff [0, 0]
      = (.error .outOfRange, []) ∧
    (∃ l tr, read (fun _ => List.replicate 0x80 0) 1 0x1ff80 0x80 = (.ok l, tr)
      ∧ l.length = 0x80) ∧
    (∃ stF tr, write echoRead echoWrite (fun _ => List.replicate 0x80 0) 1 0x20000 []
      = (.ok stF, tr)) :=
  ⟨C7_bounds_amended.1 (fun _ => List.replicate 0x80 0) 1 0x20000 1 0x80 0x20000
      (Or.inl rfl) rfl rfl (by decide),
   C7_bounds_amended.2.1 (fun _ => List.replicate 0x80 0) 1 0x1ffff 0x80 0x20000 [0, 0]
      (Or.inl rfl) rfl rfl (by decide),
   C7_bounds_amended.2.2.1 (fun _ => List.replicate 0x80 0) 1 0x1ff80 0x80 0x80 0x20000
      (Or.inl rfl) rfl rfl (fun i => by simp) (by decide) (by decide),
   C7_bounds_amended.2.2.2 (fun _ => List.replicate 0x80 0) 1 0x20000 0x80 0x20000 []
      (Or.inl rfl) rfl rfl (fun i => by simp) (by decide)⟩

/-- C10.  For both card types, a `write` whose offset is block-aligned and
whose data is a positive multiple of the block size issues exactly
`len(data)/block_size` block-write commands for consecutive blocks
starting at `offset/block_size`, carrying the corresponding chunks of
`data` — and no block-read command at all (no read-modify-write). -/
theorem C10_write_aligned_no_rmw (ct offset B M : Nat) (data : List Nat)
    (st : Nat → List Nat)
    (hct : ct = 1 ∨ ct = 2)
    (hp : CARD_PAGE_DICT ct = some B) (hm : CARD_SIZE_DICT ct = some M)
    (hin : offset + data.length ≤ M)
    (hso0 : offset % B = 0) (hmul : data.length % B = 0) (_hpos : 0 < data.length) :
    ∃ stF, write echoRead echoWrite st ct offset data
        = (.ok stF, (List.range (data.length / B)).map
            (fun k => BOp.wr (offset / B + k) ((data.drop (k * B)).take B)))
      ∧ ∀ op ∈ (List.range (data.length / B)).map
            (fun k => BOp.wr (offset / B + k) ((data.drop (k * B)).take B)),
          ∀ i, op ≠ BOp.rd i := by
  have hB : 0 < B := (geometry_pos ct B M hct hp hm).1
  obtain ⟨stF, hwc⟩ := writeCore_echo_aligned B M hB st offset data hin hso0 hmul
  refine ⟨stF, ?_, ?_⟩
  · rw [write_eq_writeCore echoRead echoWrite st ct offset B M data hct hp hm]
    exact hwc
  · intro op hop i
    obtain ⟨k, _, hk⟩ := List.mem_map.mp hop
    rw [← hk]
    intro hcontra
    exact BOp.noConfusion hcontra

set_option maxRecDepth 8000 in
/-- C10 witness: writing two full frames at frame boundary 1 on a PS1
card issues exactly the two frame writes. -/
theorem C10_witness :
    ∃ stF, write echoRead echoWrite (fun _ => List.replicate 0x80 0) 1 0x80
          (List.replicate 0x100 7)
        = (.ok stF, (List.range ((List.replicate 0x100 7 : List Nat).length / 0x80)).map
            (fun k => BOp.wr (0x80 / 0x80 + k)
              (((List.replicate 0x100 7 : List Nat).drop (k * 0x80)).take 0x80)))
      ∧ ∀ op ∈ (List.range ((List.replicate 0x100 7 : List Nat).length / 0x80)).map
            (fun k => BOp.wr (0x80 / 0x80 + k)
              (((List.replicate 0x100 7 : List Nat).drop (k * 0x80)).take 0x80)),
          ∀ i, op ≠ BOp.rd i :=
  C10_write_aligned_no_rmw 1 0x80 0x80 0x20000 (List.replicate 0x100 7)
    (fun _ => List.replicate 0x80 0) (Or.inl rfl) rfl rfl (by simp) (by decide)
    (by simp) (by simp)

/-- Against a device that never reports authenticated and always times out
the acknowledgement, the `authenticate` loop is still running after any
number of iterations: the source has no retry bound. -/
theorem authLoop_never_halts (fuel : Nat) :
    ∀ i j, (authLoop (fun _ => false) (fun _ => false) fuel i j).1 = .stillRunning := by
  induction fuel with
  | zero => intro i j; rfl
  | succ f ih => intro i j; exact ih (i + 1) (j + 1)

/-- Running `authenticate` against the device that times out the
acknowledgement for the first `k` attempts (`isAuthenticated` turning true
only after the successful handshake): the loop restarts `k` times, runs
the full step sequence on each attempt, and terminates authenticated. -/
theorem authLoop_k_timeouts (a b : Nat) :
    ∀ (k i j fuel : Nat), a = i + k + 1 → b = j + k → k + 2 ≤ fuel →
      authLoop (fun x => decide (a ≤ x)) (fun x => decide (b ≤ x)) fuel i j
        = (.authenticated, kTimeoutTrace k) := by
  intro k
  induction k with
  | zero =>
      intro i j fuel ha hb hf
      obtain ⟨f, rfl⟩ : ∃ f, fuel = f + 1 := ⟨fuel - 1, by omega⟩
      obtain ⟨f', rfl⟩ : ∃ g, f = g + 1 := ⟨f - 1, by omega⟩
      simp only [authLoop]
      rw [if_neg (show ¬(decide (a ≤ i) = true) by simp; omega),
        if_pos (show decide (b ≤ j) = true by simp; omega),
        if_pos (show decide (a ≤ i + 1) = true by simp; omega),
        if_pos (show decide (a ≤ i + 2) = true by simp; omega)]
      unfold kTimeoutTrace
      simp
  | succ k ih =>
      intro i j fuel ha hb hf
      obtain ⟨f, rfl⟩ : ∃ f, fuel = f + 1 := ⟨fuel - 1, by omega⟩
      have hrec := ih (i + 1) (j + 1) f (by omega) (by omega) (by omega)
      simp only [authLoop]
      rw [if_neg (show ¬(decide (a ≤ i) = true) by simp; omega),
        if_neg (show ¬(decide (b ≤ j) = true) by simp; omega)]
      rw [hrec]
      unfold kTimeoutTrace
      rw [List.replicate_succ]
      simp

/-- C3 counterexample: against a simulated device that never lets the
acknowledgement step succeed, `authenticate()` has neither succeeded nor
raised `AuthenticationFailed` after 1000 loop iterations — the source's
retry loop has no bound at all, so no "configured retry bound" is ever
reached. -/
theorem C3_counterexample :
    (authenticate (fun _ => false) (fun _ => false) 1000).1 = .stillRunning :=
  authLoop_never_halts 1000 0 0

/-- C3 (amended).  (1) Against a device that returns `0xAF` at the
acknowledgement step exactly `k` times before letting the handshake
succeed, `authenticate()` succeeds after `k` internal restarts, issuing
the full step sequence on each attempt (`kTimeoutTrace`).  (2) Against a
device that never acknowledges, `authenticate()` never terminates — the
loop has no retry bound (`stillRunning` at every iteration budget).
(3) When the handshake completes but the device still reports
unauthenticated, `authenticate()` raises the fatal AuthenticationFailed
error immediately, with no retry. -/
theorem C3_authenticate_amended :
    (∀ k fuel, k + 2 ≤ fuel →
        authenticate (fun x => decide (k + 1 ≤ x)) (fun x => decide (k ≤ x)) fuel
          = (.authenticated, kTimeoutTrace k)) ∧
    (∀ fuel i j, (authLoop (fun _ => false) (fun _ => false) fuel i j).1 = .stillRunning) ∧
    (∀ fuel, authenticate (fun _ => false) (fun _ => true) (fuel + 1)
        = (.authFailed, [AuthStep.isAuthQ] ++ stepsBeforeAck ++ stepsAfterAck
            ++ [AuthStep.isAuthQ])) := by
  refine ⟨?_, ?_, ?_⟩
  · intro k fuel hf
    exact authLoop_k_timeouts (k + 1) k k 0 0 fuel (by omega) (by omega) hf
  · intro fuel i j
    exact authLoop_never_halts fuel i j
  · intro fuel
    rfl

/-- C3 witness: two acknowledgement timeouts, then success, within a
budget of 10 loop iterations. -/
theorem C3_witness :
    authenticate (fun x => decide (3 ≤ x)) (fun x => decide (2 ≤ x)) 10
      = (.authenticated, kTimeoutTrace 2) :=
  C3_authenticate_amended.1 2 10 (by omega)

end MCR
